import Mathlib

/-!
Verification of the HR metrics automation pipeline.

Shallow embedding of `src/build_dashboard_report.py` and
`src/generate_mock_data.py`.  DataFrames become lists of record
structures; pandas group-by/aggregate becomes explicit key extraction,
filtering and folding; `float64` arithmetic is modelled exactly over `ℚ`,
with the IEEE special values that `pct_change` can produce at a zero
denominator represented by the dedicated type `FVal`; the filesystem is a
partial map from paths to file contents and the entry points are state
transformers over it.  The mock generator's `np.random` draws are
modelled as an abstract stream indexed by seed and draw position, which
is all its claims depend on.
-/

set_option maxHeartbeats 1000000

/-- IEEE-754-style value of a `float64` cell in a derived column:
either a finite value (represented exactly as a rational), `+inf`,
`-inf`, or `NaN`. -/
inductive FVal where
  | fin : ℚ → FVal
  | pinf : FVal
  | ninf : FVal
  | nan : FVal
deriving DecidableEq

/-- One row of the loaded input table (`load_data`'s result), after the
`month` column has been parsed into the sortable key `month_date`
(`pd.to_datetime(df["month"] + "-01")`; only its order matters, so it is
modelled as a natural number). -/
structure MonthlyRecord where
  month_date : ℕ
  department : String
  headcount : ℤ
  new_hires : ℤ
  terminations : ℤ
  open_positions : ℤ
  time_to_fill_days : ℤ
  offer_acceptance_rate : ℚ
  turnover_rate : ℚ
deriving DecidableEq

/-- One row of the `monthly` aggregate frame right after the
`groupby("month_date").agg(...)` step of `build_insights`. -/
structure AggRow where
  month_date : ℕ
  headcount : ℤ
  new_hires : ℤ
  terminations : ℤ
  open_positions : ℤ
  avg_time_to_fill : ℚ
  avg_offer_acceptance : ℚ
  avg_turnover_rate : ℚ
deriving DecidableEq

/-- A `monthly` row after the three derived delta columns have been
assigned (`pct_change` / `diff`). -/
structure MonthlyRow extends AggRow where
  headcount_mom_pct : FVal
  new_hires_mom_pct : FVal
  turnover_mom_delta : FVal
deriving DecidableEq

/-- One row of the `dept_latest` frame of `build_insights`. -/
structure DeptRow where
  department : String
  headcount : ℤ
  turnover_rate : ℚ
  time_to_fill_days : ℚ
deriving DecidableEq

/-- Comparison of rows by a sort key, as used by `sort_values`. -/
def keyLe {α β : Type} [LinearOrder β] (k : α → β) (a b : α) : Prop :=
  k a ≤ k b

instance {α β : Type} [LinearOrder β] (k : α → β) : DecidableRel (keyLe k) :=
  fun a b => inferInstanceAs (Decidable (k a ≤ k b))

instance {α β : Type} [LinearOrder β] (k : α → β) : IsTotal α (keyLe k) :=
  ⟨fun a b => le_total (k a) (k b)⟩

instance {α β : Type} [LinearOrder β] (k : α → β) : IsTrans α (keyLe k) :=
  ⟨fun _ _ _ => le_trans⟩

/-- `DataFrame.sort_values(by, ascending=True)`: pandas `nargsort` runs
numpy `argsort` on the key column.  The argsort is modelled as a stable
sort (numpy's introsort is insertion sort, hence stable, on the small
key arrays this repository produces). -/
def sort_values_asc {α β : Type} [LinearOrder β] (k : α → β) (l : List α) : List α :=
  List.insertionSort (keyLe k) l

/-- `DataFrame.sort_values(by, ascending=False)`: pandas `nargsort`
reverses the values (and their index positions) BEFORE the stable
ascending argsort and reverses the resulting indexer after — the
canonical construction of a stable descending sort (pandas GH issue
6399), so rows with equal keys keep their original (first-occurrence)
order. -/
def sort_values_desc {α β : Type} [LinearOrder β] (k : α → β) (l : List α) : List α :=
  (List.insertionSort (keyLe k) l.reverse).reverse

/-- The distinct `month_date` keys of the input, ascending:
`df.groupby("month_date")` groups by the distinct key values and emits
them sorted (the later `.sort_values("month_date")` re-sort is a no-op
on this already-sorted key column). -/
def monthKeys (df : List MonthlyRecord) : List ℕ :=
  sort_values_asc id (df.map (fun r => r.month_date)).dedup

/-- The aggregate row of one month group: `agg` with `sum` on the four
count columns and `mean` on the three rate columns. -/
def aggMonth (df : List MonthlyRecord) (m : ℕ) : AggRow :=
  let g := df.filter (fun r => r.month_date = m)
  { month_date := m
    headcount := (g.map (fun r => r.headcount)).sum
    new_hires := (g.map (fun r => r.new_hires)).sum
    terminations := (g.map (fun r => r.terminations)).sum
    open_positions := (g.map (fun r => r.open_positions)).sum
    avg_time_to_fill := (g.map (fun r => (r.time_to_fill_days : ℚ))).sum / g.length
    avg_offer_acceptance := (g.map (fun r => r.offer_acceptance_rate)).sum / g.length
    avg_turnover_rate := (g.map (fun r => r.turnover_rate)).sum / g.length }

/-- The `monthly` frame before the delta columns: one aggregate row per
distinct month, in ascending month order. -/
def monthly (df : List MonthlyRecord) : List AggRow :=
  (monthKeys df).map (aggMonth df)

/-- `series.pct_change() * 100` on one cell, given the previous cell:
pandas computes `curr / prev - 1` in `float64` and the code multiplies
by `100`.  A zero `prev` is not guarded: IEEE division then yields
`+inf`, `-inf` or `NaN` according to the sign of `curr`. -/
def pctChangeF (prev curr : ℚ) : FVal :=
  if prev = 0 then
    if 0 < curr then FVal.pinf else if curr < 0 then FVal.ninf else FVal.nan
  else FVal.fin ((curr / prev - 1) * 100)

/-- Assignment of the three delta columns to one `monthly` row, given
the row one position above (`none` for the first row, where `shift(1)`
holds no value and `pct_change` / `diff` produce `NaN`). -/
def withDeltas (prev : Option AggRow) (curr : AggRow) : MonthlyRow :=
  { toAggRow := curr
    headcount_mom_pct :=
      match prev with
      | none => FVal.nan
      | some p => pctChangeF (p.headcount : ℚ) (curr.headcount : ℚ)
    new_hires_mom_pct :=
      match prev with
      | none => FVal.nan
      | some p => pctChangeF (p.new_hires : ℚ) (curr.new_hires : ℚ)
    turnover_mom_delta :=
      match prev with
      | none => FVal.nan
      | some p => FVal.fin (curr.avg_turnover_rate - p.avg_turnover_rate) }

/-- The full `monthly` frame of `build_insights`: the aggregate rows
zipped against themselves shifted down by one, exactly the
`shift(1)`-based semantics of `pct_change` and `diff`. -/
def monthlyTable (df : List MonthlyRecord) : List MonthlyRow :=
  List.zipWith withDeltas (none :: (monthly df).map some) (monthly df)

/-- The distinct departments among the records of month `m`, ascending:
the key column of `df[df["month_date"] == latest].groupby("department")`. -/
def deptKeys (df : List MonthlyRecord) (m : ℕ) : List String :=
  sort_values_asc id ((df.filter (fun r => r.month_date = m)).map (fun r => r.department)).dedup

/-- The aggregate row of one department group of month `m`: `sum` on
headcount, `mean` on turnover rate and time-to-fill. -/
def aggDeptRow (df : List MonthlyRecord) (m : ℕ) (d : String) : DeptRow :=
  let g := (df.filter (fun r => r.month_date = m)).filter (fun r => r.department = d)
  { department := d
    headcount := (g.map (fun r => r.headcount)).sum
    turnover_rate := (g.map (fun r => r.turnover_rate)).sum / g.length
    time_to_fill_days := (g.map (fun r => (r.time_to_fill_days : ℚ))).sum / g.length }

/-- The `dept_latest` frame: department aggregates of month `m`, sorted
descending by headcount. -/
def dept_latest (df : List MonthlyRecord) (m : ℕ) : List DeptRow :=
  sort_values_desc (fun r => r.headcount) ((deptKeys df m).map (aggDeptRow df m))

/-- The month of the last `monthly` row (`latest["month_date"]`), i.e.
the largest month key. -/
def latestMonth (df : List MonthlyRecord) : ℕ :=
  (monthKeys df).getLastD 0

/-- `dept_latest.sort_values("turnover_rate", ascending=False).iloc[0]`
(`None` when the frame is empty, where `iloc[0]` would raise). -/
def top_turnover (rows : List DeptRow) : Option DeptRow :=
  (sort_values_desc (fun r => r.turnover_rate) rows).head?

/-- `dept_latest.sort_values("time_to_fill_days", ascending=True).iloc[0]`. -/
def best_ttf (rows : List DeptRow) : Option DeptRow :=
  (sort_values_asc (fun r => r.time_to_fill_days) rows).head?

/-- Errors the report pipeline can raise. -/
inductive ReportError where
  | missingInput : String → ReportError
  | parseError : ReportError
  | latestOutOfRange : ReportError
  | priorOutOfRange : ReportError
deriving DecidableEq

/-- The frames dictionary returned by `build_insights`. -/
structure Insights where
  monthly : List MonthlyRow
  dept_latest : List DeptRow
  latest : MonthlyRow
  prior : MonthlyRow
deriving DecidableEq

/-- `build_insights(df)`: builds the `monthly` frame, takes
`latest = monthly.iloc[-1]` and `prior = monthly.iloc[-2]` (each raising
`IndexError` when the frame is too short), and builds `dept_latest` for
the latest month. -/
def build_insights (df : List MonthlyRecord) : Except ReportError Insights :=
  if h1 : 1 ≤ (monthlyTable df).length then
    let latest := (monthlyTable df).get ⟨(monthlyTable df).length - 1, by omega⟩
    if h2 : 2 ≤ (monthlyTable df).length then
      let prior := (monthlyTable df).get ⟨(monthlyTable df).length - 2, by omega⟩
      Except.ok
        { monthly := monthlyTable df
          dept_latest := dept_latest df latest.month_date
          latest := latest
          prior := prior }
    else Except.error ReportError.priorOutOfRange
  else Except.error ReportError.latestOutOfRange

/-! ## Mock data generator (`src/generate_mock_data.py`) -/

/-- `bounded(value, low, high) = max(low, min(high, value))`. -/
def bounded (value low high : ℚ) : ℚ :=
  max low (min high value)

/-- Python's builtin `round` to an integer (round-half-to-even), as
applied to the `float64` values of the generator, modelled on `ℚ`. -/
def pyRound (x : ℚ) : ℤ :=
  let f : ℤ := ⌊x⌋
  let frac : ℚ := x - f
  if frac < 1 / 2 then f
  else if 1 / 2 < frac then f + 1
  else if f % 2 = 0 then f else f + 1

/-- Python's `round(x, ndigits)` for a positive digit count. -/
def roundTo (ndigits : ℕ) (x : ℚ) : ℚ :=
  (pyRound (x * 10 ^ ndigits) : ℚ) / 10 ^ ndigits

/-- The six fixed departments, in source order. -/
def departments : List String :=
  ["Engineering", "Sales", "Operations", "HR", "Finance", "Customer Success"]

/-- The `baseline` headcount dictionary. -/
def baseline : String → ℚ
  | "Engineering" => 95
  | "Sales" => 62
  | "Operations" => 54
  | "HR" => 18
  | "Finance" => 21
  | "Customer Success" => 37
  | _ => 0

/-- The `trends` dictionary. -/
def trends : String → ℚ
  | "Engineering" => 1.6
  | "Sales" => 1.0
  | "Operations" => 0.7
  | "HR" => 0.2
  | "Finance" => 0.15
  | "Customer Success" => 0.8
  | _ => 0

/-- The `turnover_base` dictionary. -/
def turnoverBase : String → ℚ
  | "Engineering" => 0.011
  | "Sales" => 0.019
  | "Operations" => 0.015
  | "HR" => 0.010
  | "Finance" => 0.009
  | "Customer Success" => 0.017
  | _ => 0

/-- The `ttf_base` dictionary. -/
def ttfBase : String → ℚ
  | "Engineering" => 47
  | "Sales" => 34
  | "Operations" => 31
  | "HR" => 29
  | "Finance" => 36
  | "Customer Success" => 26
  | _ => 0

/-- The offer-acceptance baseline dictionary. -/
def offerBase : String → ℚ
  | "Engineering" => 0.82
  | "Sales" => 0.79
  | "Operations" => 0.84
  | "HR" => 0.86
  | "Finance" => 0.81
  | "Customer Success" => 0.83
  | _ => 0

/-- Calendar month (`month.month`) of the `month_idx`-th element of
`pd.date_range("2025-02-01", "2026-01-01", freq="MS")`, which runs from
February 2025 to January 2026. -/
def calMonth (month_idx : ℕ) : ℕ :=
  (1 + month_idx) % 12 + 1

/-- Zero-padded two-digit rendering of a calendar month. -/
def pad2 (n : ℕ) : String :=
  if n < 10 then "0" ++ toString n else toString n

/-- `month.strftime("%Y-%m")` of the `month_idx`-th generated month. -/
def ymStr (month_idx : ℕ) : String :=
  toString (2025 + (1 + month_idx) / 12) ++ "-" ++ pad2 (calMonth month_idx)

/-- One row of the generator's output file, with the fields in the
key order of the row dictionary (which becomes the CSV column order). -/
structure GenRow where
  month : String
  department : String
  headcount : ℤ
  new_hires : ℤ
  terminations : ℤ
  open_positions : ℤ
  time_to_fill_days : ℤ
  offer_acceptance_rate : ℚ
  turnover_rate : ℚ
deriving DecidableEq

/-- The body of the generator's inner loop for month index `month_idx`
and the department at position `dept_idx`.  The global `np.random`
state is modelled by the stream `noise`: the loop body makes exactly
eight draws (in source order: headcount noise, hiring noise, turnover
noise, termination noise, the uniform and normal draws of
open-positions, time-to-fill noise, offer-acceptance noise), so this row
consumes stream positions `8 * (6 * month_idx + dept_idx)` onward. -/
def genRow (noise : ℕ → ℚ) (month_idx dept_idx : ℕ) (dept : String) : GenRow :=
  let k := 8 * (6 * month_idx + dept_idx)
  let m := calMonth month_idx
  let seasonal_hiring_boost : ℚ := if m ∈ [3, 4, 9, 10] then 1.2 else 0.8
  let base_hc : ℚ := baseline dept + trends dept * (month_idx : ℚ) + noise k
  let headcount : ℤ := pyRound (max 8 base_hc)
  let hire_rate : ℚ := 0.035 * seasonal_hiring_boost
  let new_hires : ℤ := pyRound (max 0 ((headcount : ℚ) * hire_rate + noise (k + 1)))
  let turnover_rate : ℚ :=
    bounded (turnoverBase dept + noise (k + 2) + (if m ∈ [7, 8] then 0.002 else 0)) 0.004 0.05
  let terminations : ℤ := pyRound (max 0 ((headcount : ℚ) * turnover_rate + noise (k + 3)))
  let open_positions : ℤ := pyRound (max 0 ((new_hires : ℚ) * noise (k + 4) + noise (k + 5)))
  let time_to_fill : ℤ :=
    pyRound (max 15 (ttfBase dept + noise (k + 6) - (if m ∈ [10, 11] then 1 else 0)))
  let offer_acceptance_rate : ℚ :=
    bounded (offerBase dept + noise (k + 7) - (if m ∈ [6, 7] then 0.015 else 0)) 0.62 0.95
  { month := ymStr month_idx
    department := dept
    headcount := headcount
    new_hires := new_hires
    terminations := terminations
    open_positions := open_positions
    time_to_fill_days := time_to_fill
    offer_acceptance_rate := roundTo 1 (offer_acceptance_rate * 100)
    turnover_rate := roundTo 2 (turnover_rate * 100) }

/-- The full `rows` list of the generator: twelve months times the six
departments, in loop order. -/
def generateRows (noise : ℕ → ℚ) : List GenRow :=
  (List.range 12).flatMap fun i => departments.enum.map fun p => genRow noise i p.1 p.2

/-- Column names of the generator's CSV, in the dictionary key order of
its rows. -/
def genColumns : List String :=
  ["month", "department", "headcount", "new_hires", "terminations", "open_positions",
   "time_to_fill_days", "offer_acceptance_rate", "turnover_rate"]

/-- The columns the report builder reads from the input file:
`load_data` reads `month`, and `build_insights` reads the department and
all seven metric columns.  This is the schema of §6 of the spec. -/
def loaderColumns : List String :=
  ["month", "department", "headcount", "new_hires", "terminations", "open_positions",
   "time_to_fill_days", "offer_acceptance_rate", "turnover_rate"]

/-! ## Filesystem model and entry points -/

/-- Content of a file, carrying the data the file is rendered from
(rendering to bytes is outside the embedding). -/
inductive FileContent where
  | inputCsv : List MonthlyRecord → FileContent
  | chartHeadcount : List MonthlyRow → FileContent
  | chartHiring : List MonthlyRow → FileContent
  | chartDepartment : List DeptRow → FileContent
  | presentationFile : Insights → FileContent
  | summaryText : Insights → FileContent
  | mockCsv : List String → List GenRow → FileContent

/-- A filesystem: a partial map from paths to file contents.
Directories are not modelled (the scripts only `mkdir` directories,
never write them as files). -/
structure FS where
  files : String → Option FileContent

/-- `DATA_PATH`, relative to the repository root: written by the
generator, read by the report builder. -/
def DATA_PATH : String :=
  "data/hr_metrics_monthly.csv"

def headcountChartPath : String := "output/headcount_trend.png"

def hiringChartPath : String := "output/hiring_turnover_trend.png"

def deptChartPath : String := "output/department_breakdown.png"

def pptxPath : String := "output/hr_metrics_executive_dashboard.pptx"

def summaryPath : String := "output/executive_summary.txt"

/-- Write (or overwrite) one file. -/
def writeFile (fs : FS) (path : String) (c : FileContent) : FS :=
  ⟨fun p => if p = path then some c else fs.files p⟩

/-- `load_data(path)`: raises `FileNotFoundError` (the spec's
`MissingInputError`) when the path does not exist, otherwise reads the
CSV; content that is not a well-formed metrics CSV propagates a parse
error. -/
def load_data (fs : FS) (path : String) : Except ReportError (List MonthlyRecord) :=
  match fs.files path with
  | none => Except.error (ReportError.missingInput ("Metrics file not found: " ++ path))
  | some (FileContent.inputCsv rows) => Except.ok rows
  | some _ => Except.error ReportError.parseError

/-- `main()` of `build_dashboard_report.py`: load, build insights, then
write the three charts, the deck and the text summary.  On any error the
filesystem is returned untouched (the `OUTPUT_DIR.mkdir` call creates a
directory, not a file). -/
def reportMain (fs : FS) : FS × Except ReportError Unit :=
  match load_data fs DATA_PATH with
  | Except.error e => (fs, Except.error e)
  | Except.ok df =>
    match build_insights df with
    | Except.error e => (fs, Except.error e)
    | Except.ok ins =>
      let fs1 := writeFile fs headcountChartPath (FileContent.chartHeadcount ins.monthly)
      let fs2 := writeFile fs1 hiringChartPath (FileContent.chartHiring ins.monthly)
      let fs3 := writeFile fs2 deptChartPath (FileContent.chartDepartment ins.dept_latest)
      let fs4 := writeFile fs3 pptxPath (FileContent.presentationFile ins)
      let fs5 := writeFile fs4 summaryPath (FileContent.summaryText ins)
      (fs5, Except.ok ())

/-- `main()` of `generate_mock_data.py`: `np.random.seed(42)` fixes the
global random stream to the one derived from seed 42 (`sampler` maps a
seed to its stream of draws), then the rows are generated and written to
`DATA_PATH`. -/
def generate_mock_data_main (sampler : ℕ → ℕ → ℚ) (fs : FS) : FS :=
  let noise := sampler 42
  writeFile fs DATA_PATH (FileContent.mockCsv genColumns (generateRows noise))

/-! ## Structural lemmas about the monthly frame -/

theorem withDeltas_toAggRow (p : Option AggRow) (c : AggRow) :
    (withDeltas p c).toAggRow = c :=
  rfl

theorem zipWith_withDeltas_map (rows : List AggRow) :
    ∀ p, (List.zipWith withDeltas (p :: rows.map some) rows).map (fun r => r.toAggRow) = rows := by
  induction rows with
  | nil => intro p; rfl
  | cons r rs ih =>
    intro p
    simp only [List.map_cons, List.zipWith_cons_cons, withDeltas_toAggRow]
    rw [ih (some r)]

theorem monthlyTable_map_toAggRow (df : List MonthlyRecord) :
    (monthlyTable df).map (fun r => r.toAggRow) = monthly df :=
  zipWith_withDeltas_map (monthly df) none

theorem monthlyTable_length (df : List MonthlyRecord) :
    (monthlyTable df).length = (monthly df).length := by
  have h := congrArg List.length (monthlyTable_map_toAggRow df)
  simpa using h

theorem monthKeys_sorted (df : List MonthlyRecord) :
    (monthKeys df).Sorted (fun a b => a ≤ b) := by
  have h := List.sorted_insertionSort (keyLe (id : ℕ → ℕ)) (df.map (fun r => r.month_date)).dedup
  exact h

theorem monthKeys_nodup (df : List MonthlyRecord) : (monthKeys df).Nodup :=
  ((List.perm_insertionSort _ _).nodup_iff).mpr (List.nodup_dedup _)

theorem monthKeys_sorted_lt (df : List MonthlyRecord) : (monthKeys df).Sorted (· < ·) :=
  (monthKeys_sorted df).lt_of_le (monthKeys_nodup df)

theorem mem_monthKeys (df : List MonthlyRecord) (m : ℕ) :
    m ∈ monthKeys df ↔ m ∈ df.map (fun r => r.month_date) := by
  rw [monthKeys, sort_values_asc, (List.perm_insertionSort _ _).mem_iff, List.mem_dedup]

theorem monthKeys_length (df : List MonthlyRecord) :
    (monthKeys df).length = (df.map (fun r => r.month_date)).dedup.length :=
  (List.perm_insertionSort _ _).length_eq

theorem monthly_map_month (df : List MonthlyRecord) :
    (monthly df).map (fun a => a.month_date) = monthKeys df := by
  rw [monthly, List.map_map]
  rw [show ((fun a : AggRow => a.month_date) ∘ aggMonth df) = id from funext fun m => rfl]
  exact List.map_id _

theorem monthlyTable_map_month (df : List MonthlyRecord) :
    (monthlyTable df).map (fun r => r.month_date) = monthKeys df := by
  rw [show (fun r : MonthlyRow => r.month_date)
      = (fun a : AggRow => a.month_date) ∘ (fun r : MonthlyRow => r.toAggRow) from rfl]
  rw [← List.map_map, monthlyTable_map_toAggRow, monthly_map_month]

theorem monthlyTable_getElem_first (df : List MonthlyRecord) (p : MonthlyRow)
    (hp : (monthlyTable df)[0]? = some p) :
    ∃ a, (monthly df)[0]? = some a ∧ p = withDeltas none a := by
  rw [monthlyTable, List.getElem?_zipWith] at hp
  cases h : (monthly df)[0]? with
  | none => rw [h] at hp; simp at hp
  | some a =>
    rw [h] at hp
    simp only [List.getElem?_cons_zero] at hp
    exact ⟨a, rfl, (Option.some_inj.mp hp).symm⟩

theorem monthlyTable_getElem_succ (df : List MonthlyRecord) (i : ℕ) (c : MonthlyRow)
    (hc : (monthlyTable df)[i + 1]? = some c) :
    ∃ a b, (monthly df)[i]? = some a ∧ (monthly df)[i + 1]? = some b
      ∧ c = withDeltas (some a) b := by
  rw [monthlyTable] at hc
  obtain ⟨x, y, hx, hy, hxy⟩ := List.getElem?_zipWith_eq_some.mp hc
  rw [List.getElem?_cons_succ, List.getElem?_map] at hx
  cases ha : (monthly df)[i]? with
  | none => rw [ha] at hx; simp at hx
  | some a =>
    rw [ha] at hx
    simp only [Option.map_some'] at hx
    obtain rfl : x = some a := (Option.some_inj.mp hx).symm
    exact ⟨a, y, rfl, hy, hxy.symm⟩

theorem monthlyTable_getElem_toAggRow (df : List MonthlyRecord) (i : ℕ) (p : MonthlyRow)
    (hp : (monthlyTable df)[i]? = some p) :
    (monthly df)[i]? = some p.toAggRow := by
  cases i with
  | zero =>
    obtain ⟨a, ha, rfl⟩ := monthlyTable_getElem_first df p hp
    exact ha
  | succ j =>
    obtain ⟨a, b, _, hb, rfl⟩ := monthlyTable_getElem_succ df j p hp
    exact hb

theorem monthlyTable_first_nan (df : List MonthlyRecord) (p : MonthlyRow)
    (hp : (monthlyTable df)[0]? = some p) :
    p.headcount_mom_pct = FVal.nan ∧ p.new_hires_mom_pct = FVal.nan
      ∧ p.turnover_mom_delta = FVal.nan := by
  obtain ⟨a, _, rfl⟩ := monthlyTable_getElem_first df p hp
  exact ⟨rfl, rfl, rfl⟩

theorem monthlyTable_delta_fields (df : List MonthlyRecord) (i : ℕ) (p c : MonthlyRow)
    (hp : (monthlyTable df)[i]? = some p) (hc : (monthlyTable df)[i + 1]? = some c) :
    c.headcount_mom_pct = pctChangeF (p.headcount : ℚ) (c.headcount : ℚ)
    ∧ c.new_hires_mom_pct = pctChangeF (p.new_hires : ℚ) (c.new_hires : ℚ)
    ∧ c.turnover_mom_delta = FVal.fin (c.avg_turnover_rate - p.avg_turnover_rate) := by
  obtain ⟨a, b, ha, hb, rfl⟩ := monthlyTable_getElem_succ df i c hc
  have hpa := monthlyTable_getElem_toAggRow df i p hp
  rw [ha] at hpa
  have haa : a = p.toAggRow := Option.some_inj.mp hpa
  subst haa
  exact ⟨rfl, rfl, rfl⟩

theorem mem_monthlyTable_agg (df : List MonthlyRecord) (r : MonthlyRow)
    (hr : r ∈ monthlyTable df) :
    r.toAggRow = aggMonth df r.month_date := by
  have h1 : r.toAggRow ∈ monthly df := by
    rw [← monthlyTable_map_toAggRow df]
    exact List.mem_map_of_mem _ hr
  obtain ⟨m, _, he⟩ := List.mem_map.mp h1
  have hmd : (aggMonth df m).month_date = m := rfl
  have hm2 : r.month_date = m := by
    rw [show r.month_date = r.toAggRow.month_date from rfl, ← he, hmd]
  rw [hm2]
  exact he.symm

/-! ## Head and last of a stable sort: first-of-min and last-of-max -/

/-- The first list element achieving the minimal key (ties keep the
earlier element). -/
def minByFirst {α β : Type} [LinearOrder β] (k : α → β) : List α → Option α
  | [] => none
  | x :: xs =>
    match minByFirst k xs with
    | none => some x
    | some m => if k x ≤ k m then some x else some m

/-- The last list element achieving the maximal key (ties keep the
later element). -/
def maxByLast {α β : Type} [LinearOrder β] (k : α → β) : List α → Option α
  | [] => none
  | x :: xs =>
    match maxByLast k xs with
    | none => some x
    | some m => if k x ≤ k m then some m else some x

/-- The first list element achieving the maximal key (ties keep the
earlier element). -/
def maxByFirst {α β : Type} [LinearOrder β] (k : α → β) : List α → Option α
  | [] => none
  | x :: xs =>
    match maxByFirst k xs with
    | none => some x
    | some m => if k x < k m then some m else some x

theorem insertionSort_eq_nil_iff {α : Type} (r : α → α → Prop) [DecidableRel r] (l : List α) :
    List.insertionSort r l = [] ↔ l = [] := by
  constructor
  · intro h
    have hl := (List.perm_insertionSort r l).length_eq
    rw [h] at hl
    exact List.length_eq_zero.mp hl.symm
  · intro h
    subst h
    rfl

theorem head?_insertionSort {α β : Type} [LinearOrder β] (k : α → β) (l : List α) :
    (List.insertionSort (keyLe k) l).head? = minByFirst k l := by
  induction l with
  | nil => rfl
  | cons a l ih =>
    rw [List.insertionSort]
    cases hs : List.insertionSort (keyLe k) l with
    | nil =>
      have hl : l = [] := (insertionSort_eq_nil_iff _ _).mp hs
      subst hl
      rfl
    | cons y ys =>
      have hy : minByFirst k l = some y := by
        rw [← ih, hs]
        rfl
      rw [List.orderedInsert]
      by_cases h : keyLe k a y
      · rw [if_pos h]
        simp [minByFirst, hy, keyLe] at h ⊢
        rw [if_pos h]
      · rw [if_neg h]
        simp [minByFirst, hy, keyLe] at h ⊢
        rw [if_neg (by exact fun hc => absurd hc (not_le.mpr h))]

theorem sorted_le_getLast {α β : Type} [LinearOrder β] (k : α → β) :
    ∀ s : List α, s.Sorted (keyLe k) → ∀ m, s.getLast? = some m → ∀ y ∈ s, k y ≤ k m := by
  intro s
  induction s with
  | nil => intro _ m hm; simp at hm
  | cons a s ih =>
    intro hs m hm y hy
    cases s with
    | nil =>
      simp at hm hy
      subst hm
      subst hy
      exact le_refl _
    | cons b t =>
      rw [List.getLast?_cons_cons] at hm
      rcases List.mem_cons.mp hy with rfl | hy2
      · exact (List.sorted_cons.mp hs).1 m (List.mem_of_getLast?_eq_some hm)
      · exact ih (List.sorted_cons.mp hs).2 m hm y hy2

theorem getLast?_orderedInsert {α β : Type} [LinearOrder β] (k : α → β) (a : α) :
    ∀ s : List α, s.Sorted (keyLe k) →
      (List.orderedInsert (keyLe k) a s).getLast? =
        some (match s.getLast? with
              | none => a
              | some m => if k a ≤ k m then m else a) := by
  intro s
  induction s with
  | nil => intro _; rfl
  | cons y ys ih =>
    intro hs
    rw [List.orderedInsert]
    by_cases h : keyLe k a y
    · rw [if_pos h]
      have hsome : (y :: ys).getLast?.isSome := List.getLast?_isSome.mpr (by simp)
      obtain ⟨m, hm⟩ := Option.isSome_iff_exists.mp hsome
      have hym : k y ≤ k m :=
        sorted_le_getLast k (y :: ys) hs m hm y (List.mem_cons_self y ys)
      have ham : k a ≤ k m := le_trans h hym
      rw [List.getLast?_cons_cons, hm]
      simp [ham]
    · rw [if_neg h]
      cases ys with
      | nil =>
        have h2 : ¬ k a ≤ k y := h
        simp [List.orderedInsert, h2]
      | cons z t =>
        have htail := ih (List.sorted_cons.mp hs).2
        cases hoi : List.orderedInsert (keyLe k) a (z :: t) with
        | nil =>
          have := List.orderedInsert_length (keyLe k) (z :: t) a
          rw [hoi] at this
          simp at this
        | cons w ws =>
          rw [List.getLast?_cons_cons, ← hoi, htail, List.getLast?_cons_cons]

theorem getLast?_insertionSort {α β : Type} [LinearOrder β] (k : α → β) (l : List α) :
    (List.insertionSort (keyLe k) l).getLast? = maxByLast k l := by
  induction l with
  | nil => rfl
  | cons a l ih =>
    rw [List.insertionSort,
      getLast?_orderedInsert k a _ (List.sorted_insertionSort _ _), ih]
    cases hm : maxByLast k l with
    | none => simp [maxByLast, hm]
    | some m =>
      by_cases hab : k a ≤ k m
      · simp [maxByLast, hm, hab]
      · simp [maxByLast, hm, hab]

theorem minByFirst_ne_none {α β : Type} [LinearOrder β] (k : α → β) (x : α) (xs : List α) :
    minByFirst k (x :: xs) ≠ none := by
  rw [minByFirst]
  cases minByFirst k xs with
  | none => simp
  | some m => by_cases h : k x ≤ k m <;> simp [h]

theorem maxByLast_ne_none {α β : Type} [LinearOrder β] (k : α → β) (x : α) (xs : List α) :
    maxByLast k (x :: xs) ≠ none := by
  rw [maxByLast]
  cases maxByLast k xs with
  | none => simp
  | some m => by_cases h : k x ≤ k m <;> simp [h]

theorem minByFirst_mem {α β : Type} [LinearOrder β] (k : α → β) :
    ∀ (l : List α) (m : α), minByFirst k l = some m → m ∈ l := by
  intro l
  induction l with
  | nil => intro m hm; simp [minByFirst] at hm
  | cons x xs ih =>
    intro m hm
    rw [minByFirst] at hm
    split at hm
    · exact List.mem_cons.mpr (Or.inl (Option.some_inj.mp hm).symm)
    · next w hx =>
      split at hm
      · exact List.mem_cons.mpr (Or.inl (Option.some_inj.mp hm).symm)
      · exact List.mem_cons.mpr (Or.inr (ih m (hx.trans (congrArg some (Option.some_inj.mp hm)))))

theorem minByFirst_le {α β : Type} [LinearOrder β] (k : α → β) :
    ∀ (l : List α) (m : α), minByFirst k l = some m → ∀ y ∈ l, k m ≤ k y := by
  intro l
  induction l with
  | nil => intro m hm; simp [minByFirst] at hm
  | cons x xs ih =>
    intro m hm y hy
    rw [minByFirst] at hm
    split at hm
    · next hx =>
      obtain rfl : x = m := Option.some_inj.mp hm
      rcases List.mem_cons.mp hy with rfl | hy2
      · exact le_refl _
      · cases xs with
        | nil => simp at hy2
        | cons z t => exact absurd hx (minByFirst_ne_none k z t)
    · next w hx =>
      split at hm
      · next hk =>
        obtain rfl : x = m := Option.some_inj.mp hm
        rcases List.mem_cons.mp hy with rfl | hy2
        · exact le_refl _
        · exact le_trans hk (ih w hx y hy2)
      · next hk =>
        obtain rfl : w = m := Option.some_inj.mp hm
        rcases List.mem_cons.mp hy with rfl | hy2
        · exact le_of_lt (not_le.mp hk)
        · exact ih _ hx y hy2

theorem maxByLast_mem {α β : Type} [LinearOrder β] (k : α → β) :
    ∀ (l : List α) (m : α), maxByLast k l = some m → m ∈ l := by
  intro l
  induction l with
  | nil => intro m hm; simp [maxByLast] at hm
  | cons x xs ih =>
    intro m hm
    rw [maxByLast] at hm
    split at hm
    · exact List.mem_cons.mpr (Or.inl (Option.some_inj.mp hm).symm)
    · next w hx =>
      split at hm
      · exact List.mem_cons.mpr (Or.inr (ih m (hx.trans (congrArg some (Option.some_inj.mp hm)))))
      · exact List.mem_cons.mpr (Or.inl (Option.some_inj.mp hm).symm)

theorem maxByLast_ge {α β : Type} [LinearOrder β] (k : α → β) :
    ∀ (l : List α) (m : α), maxByLast k l = some m → ∀ y ∈ l, k y ≤ k m := by
  intro l
  induction l with
  | nil => intro m hm; simp [maxByLast] at hm
  | cons x xs ih =>
    intro m hm y hy
    rw [maxByLast] at hm
    split at hm
    · next hx =>
      obtain rfl : x = m := Option.some_inj.mp hm
      rcases List.mem_cons.mp hy with rfl | hy2
      · exact le_refl _
      · cases xs with
        | nil => simp at hy2
        | cons z t => exact absurd hx (maxByLast_ne_none k z t)
    · next w hx =>
      split at hm
      · next hk =>
        obtain rfl : w = m := Option.some_inj.mp hm
        rcases List.mem_cons.mp hy with rfl | hy2
        · exact hk
        · exact ih _ hx y hy2
      · next hk =>
        obtain rfl : x = m := Option.some_inj.mp hm
        rcases List.mem_cons.mp hy with rfl | hy2
        · exact le_refl _
        · exact le_trans (ih w hx y hy2) (le_of_lt (not_le.mp hk))

theorem maxByLast_append_singleton {α β : Type} [LinearOrder β] (k : α → β) (x : α) :
    ∀ l : List α, maxByLast k (l ++ [x])
      = some ((maxByLast k l).elim x (fun m => if k m ≤ k x then x else m)) := by
  intro l
  induction l with
  | nil => rfl
  | cons y ys ih =>
    rw [List.cons_append, maxByLast, ih]
    cases hys : maxByLast k ys with
    | none =>
      by_cases h : k y ≤ k x <;> simp [maxByLast, hys, h]
    | some m =>
      by_cases h1 : k m ≤ k x
      · by_cases h2 : k y ≤ k m
        · have hyx : k y ≤ k x := le_trans h2 h1
          simp [maxByLast, hys, h1, h2, hyx]
        · simp [maxByLast, hys, h1, h2]
          split_ifs <;> rfl
      · by_cases h2 : k y ≤ k m
        · simp [maxByLast, hys, h1, h2]
        · have h4 : ¬ k y ≤ k x := fun hc =>
            absurd (lt_trans (not_le.mp h1) (not_le.mp h2)) (not_lt.mpr hc)
          simp [maxByLast, hys, h1, h2, h4]

/-- `maxByLast` of a reversed list is the FIRST occurrence of the
maximal key in the original list. -/
theorem maxByLast_reverse {α β : Type} [LinearOrder β] (k : α → β) :
    ∀ l : List α, maxByLast k l.reverse = maxByFirst k l := by
  intro l
  induction l with
  | nil => rfl
  | cons x xs ih =>
    rw [List.reverse_cons, maxByLast_append_singleton, ih]
    cases hm : maxByFirst k xs with
    | none => simp [maxByFirst, hm]
    | some m =>
      by_cases h : k m ≤ k x
      · simp [maxByFirst, hm, h, not_lt.mpr h]
      · have hlt : k x < k m := not_le.mp h
        simp [maxByFirst, hm, h, hlt]

theorem maxByFirst_mem {α β : Type} [LinearOrder β] (k : α → β) (l : List α) (m : α)
    (hm : maxByFirst k l = some m) : m ∈ l := by
  rw [← maxByLast_reverse] at hm
  exact List.mem_reverse.mp (maxByLast_mem k l.reverse m hm)

theorem maxByFirst_ge {α β : Type} [LinearOrder β] (k : α → β) (l : List α) (m : α)
    (hm : maxByFirst k l = some m) : ∀ y ∈ l, k y ≤ k m := by
  rw [← maxByLast_reverse] at hm
  intro y hy
  exact maxByLast_ge k l.reverse m hm y (List.mem_reverse.mpr hy)

/-- The max-turnover selection is the first occurrence of the maximal
turnover rate: the descending sort is stable (pre-reverse, stable
ascending sort, post-reverse), so its first row is the first original
occurrence among the rows of maximal key. -/
theorem top_turnover_eq_maxByFirst (rows : List DeptRow) :
    top_turnover rows = maxByFirst (fun r => r.turnover_rate) rows := by
  rw [top_turnover, sort_values_desc, List.head?_reverse, getLast?_insertionSort,
    maxByLast_reverse]

/-- The min-time-to-fill selection is the first occurrence of the
minimal time-to-fill, by stability of the ascending sort. -/
theorem best_ttf_eq_minByFirst (rows : List DeptRow) :
    best_ttf rows = minByFirst (fun r => r.time_to_fill_days) rows := by
  rw [best_ttf, sort_values_asc, head?_insertionSort]

/-! ## Lemmas about the department snapshot frame -/

theorem dept_latest_perm_rows (df : List MonthlyRecord) (m : ℕ) :
    (dept_latest df m).Perm ((deptKeys df m).map (aggDeptRow df m)) := by
  rw [dept_latest, sort_values_desc]
  exact (List.reverse_perm _).trans
    ((List.perm_insertionSort _ _).trans (List.reverse_perm _))

theorem dept_latest_map_dept_perm (df : List MonthlyRecord) (m : ℕ) :
    ((dept_latest df m).map (fun r => r.department)).Perm
      (((df.filter (fun r => r.month_date = m)).map (fun r => r.department)).dedup) := by
  have h2 := (dept_latest_perm_rows df m).map (fun r => r.department)
  apply h2.trans
  rw [List.map_map]
  rw [show ((fun r : DeptRow => r.department) ∘ aggDeptRow df m) = id from funext fun d => rfl]
  rw [List.map_id]
  exact List.perm_insertionSort _ _

theorem mem_dept_latest_agg (df : List MonthlyRecord) (m : ℕ) (r : DeptRow)
    (hr : r ∈ dept_latest df m) :
    r = aggDeptRow df m r.department := by
  have h1 : r ∈ (deptKeys df m).map (aggDeptRow df m) :=
    ((dept_latest_perm_rows df m).mem_iff).mp hr
  obtain ⟨d, _, he⟩ := List.mem_map.mp h1
  have hdd : (aggDeptRow df m d).department = d := rfl
  have hd : r.department = d := by
    rw [show r.department = r.department from rfl, ← he, hdd]
  rw [hd]
  exact he.symm

theorem dept_latest_sorted_desc (df : List MonthlyRecord) (m : ℕ) :
    ((dept_latest df m).map (fun r => r.headcount)).Sorted (fun a b => b ≤ a) := by
  rw [dept_latest, sort_values_desc, List.map_reverse]
  apply List.pairwise_reverse.mpr
  apply List.pairwise_map.mpr
  have h := List.sorted_insertionSort (keyLe (fun r : DeptRow => r.headcount))
    (((deptKeys df m).map (aggDeptRow df m)).reverse)
  exact h

/-- Per-department aggregation correctness of one `dept_latest` row of
month `m`: headcount summed, turnover rate and time-to-fill averaged
over that department's records of that month. -/
def deptRowCorrect (df : List MonthlyRecord) (m : ℕ) (r : DeptRow) : Prop :=
  r.headcount = (((df.filter (fun x => x.month_date = m)).filter
      (fun x => x.department = r.department)).map (fun x => x.headcount)).sum
  ∧ r.turnover_rate = (((df.filter (fun x => x.month_date = m)).filter
      (fun x => x.department = r.department)).map (fun x => x.turnover_rate)).sum
      / ((df.filter (fun x => x.month_date = m)).filter
      (fun x => x.department = r.department)).length
  ∧ r.time_to_fill_days = (((df.filter (fun x => x.month_date = m)).filter
      (fun x => x.department = r.department)).map (fun x => (x.time_to_fill_days : ℚ))).sum
      / ((df.filter (fun x => x.month_date = m)).filter
      (fun x => x.department = r.department)).length

/-- The full statement of claim C3 about `dept_latest` at the latest
month: one row per distinct department of that month's records, each
row aggregated from that month's records of its department only, and
the frame sorted descending by headcount. -/
def deptSnapshotSpec (df : List MonthlyRecord) : Prop :=
  ((dept_latest df (latestMonth df)).map (fun r => r.department)).Perm
    (((df.filter (fun r => r.month_date = latestMonth df)).map (fun r => r.department)).dedup)
  ∧ (∀ r ∈ dept_latest df (latestMonth df), deptRowCorrect df (latestMonth df) r)
  ∧ ((dept_latest df (latestMonth df)).map (fun r => r.headcount)).Sorted (fun a b => b ≤ a)

/-- C3: for every input, the department snapshot table is computed only
from the latest month's records, has exactly one row per distinct
department present in those records (row departments are a permutation
of the distinct departments), aggregates headcount by sum and turnover
rate and time-to-fill by mean per department, and is sorted descending
by headcount. -/
theorem dept_latest_snapshot_spec (df : List MonthlyRecord) : deptSnapshotSpec df := by
  refine ⟨dept_latest_map_dept_perm df _, ?_, dept_latest_sorted_desc df _⟩
  intro r hr
  have h := mem_dept_latest_agg df (latestMonth df) r hr
  exact ⟨congrArg DeptRow.headcount h, congrArg DeptRow.turnover_rate h,
    congrArg DeptRow.time_to_fill_days h⟩

/-! ## Claim C1: the monthly aggregate table -/

/-- Aggregation correctness of one `monthly` row: the four count columns
are sums and the three rate columns are arithmetic means over the
records of that row's month. -/
def monthlyRowCorrect (df : List MonthlyRecord) (r : MonthlyRow) : Prop :=
  r.headcount = ((df.filter (fun x => x.month_date = r.month_date)).map
      (fun x => x.headcount)).sum
  ∧ r.new_hires = ((df.filter (fun x => x.month_date = r.month_date)).map
      (fun x => x.new_hires)).sum
  ∧ r.terminations = ((df.filter (fun x => x.month_date = r.month_date)).map
      (fun x => x.terminations)).sum
  ∧ r.open_positions = ((df.filter (fun x => x.month_date = r.month_date)).map
      (fun x => x.open_positions)).sum
  ∧ r.avg_time_to_fill = ((df.filter (fun x => x.month_date = r.month_date)).map
      (fun x => (x.time_to_fill_days : ℚ))).sum
      / (df.filter (fun x => x.month_date = r.month_date)).length
  ∧ r.avg_offer_acceptance = ((df.filter (fun x => x.month_date = r.month_date)).map
      (fun x => x.offer_acceptance_rate)).sum
      / (df.filter (fun x => x.month_date = r.month_date)).length
  ∧ r.avg_turnover_rate = ((df.filter (fun x => x.month_date = r.month_date)).map
      (fun x => x.turnover_rate)).sum
      / (df.filter (fun x => x.month_date = r.month_date)).length

theorem monthlyTable_agg_correct (df : List MonthlyRecord) (r : MonthlyRow)
    (hr : r ∈ monthlyTable df) : monthlyRowCorrect df r := by
  have h := mem_monthlyTable_agg df r hr
  exact ⟨congrArg AggRow.headcount h, congrArg AggRow.new_hires h,
    congrArg AggRow.terminations h, congrArg AggRow.open_positions h,
    congrArg AggRow.avg_time_to_fill h, congrArg AggRow.avg_offer_acceptance h,
    congrArg AggRow.avg_turnover_rate h⟩

/-- The full statement of claim C1 about the `monthly` frame: one row
per distinct month (count, membership and strict ascending sortedness
of the month column), each row aggregated per the sum/mean rules. -/
def monthlyAggSpec (df : List MonthlyRecord) : Prop :=
  (monthlyTable df).length = ((df.map (fun r => r.month_date)).dedup).length
  ∧ (∀ m : ℕ, m ∈ (monthlyTable df).map (fun r => r.month_date)
      ↔ m ∈ df.map (fun r => r.month_date))
  ∧ ((monthlyTable df).map (fun r => r.month_date)).Sorted (fun a b => a < b)
  ∧ ∀ r ∈ monthlyTable df, monthlyRowCorrect df r

/-- C1: for every input with at least two distinct months, the monthly
aggregate table has exactly one row per distinct month, is sorted
strictly ascending by month, and each row carries the sums of the
headcount/new-hires/terminations/open-positions columns and the means
of the time-to-fill/offer-acceptance/turnover columns over that month's
records. -/
theorem build_insights_monthly_spec (df : List MonthlyRecord)
    (_h2 : 2 ≤ ((df.map (fun r => r.month_date)).dedup).length) :
    monthlyAggSpec df := by
  refine ⟨?_, ?_, ?_, ?_⟩
  · rw [monthlyTable_length, monthly, List.length_map, monthKeys_length]
  · intro m
    rw [monthlyTable_map_month, mem_monthKeys]
  · rw [monthlyTable_map_month]
    exact monthKeys_sorted_lt df
  · intro r hr
    exact monthlyTable_agg_correct df r hr

/-- A concrete two-month, two-department input used to instantiate the
claims that carry hypotheses. -/
def dfW : List MonthlyRecord :=
  [{ month_date := 1, department := "Engineering", headcount := 60, new_hires := 4,
     terminations := 1, open_positions := 2, time_to_fill_days := 30,
     offer_acceptance_rate := 80, turnover_rate := 2 },
   { month_date := 1, department := "Sales", headcount := 40, new_hires := 1,
     terminations := 1, open_positions := 1, time_to_fill_days := 20,
     offer_acceptance_rate := 70, turnover_rate := 4 },
   { month_date := 2, department := "Engineering", headcount := 66, new_hires := 5,
     terminations := 2, open_positions := 3, time_to_fill_days := 28,
     offer_acceptance_rate := 82, turnover_rate := 3 },
   { month_date := 2, department := "Sales", headcount := 44, new_hires := 2,
     terminations := 1, open_positions := 2, time_to_fill_days := 22,
     offer_acceptance_rate := 72, turnover_rate := 5 }]

theorem build_insights_monthly_spec_witness :
    2 ≤ ((dfW.map (fun r => r.month_date)).dedup).length ∧ monthlyAggSpec dfW :=
  ⟨by decide, build_insights_monthly_spec dfW (by decide)⟩

/-! ## Claim C2: the month-over-month delta columns -/

theorem pctChangeF_of_ne_zero (prev curr : ℚ) (h : prev ≠ 0) :
    pctChangeF prev curr = FVal.fin ((curr - prev) / prev * 100) := by
  rw [pctChangeF, if_neg h]
  congr 1
  field_simp

/-- The full statement of claim C2: the first `monthly` row has
undefined (`NaN`) delta columns; every later row's percentage columns
follow `(curr - prev) / prev * 100` against the row one position above
(whenever that denominator is nonzero, where the division is defined),
and its turnover delta is the plain difference. -/
def momDeltaSpec (df : List MonthlyRecord) : Prop :=
  (∀ r, (monthlyTable df)[0]? = some r →
    r.headcount_mom_pct = FVal.nan ∧ r.new_hires_mom_pct = FVal.nan
      ∧ r.turnover_mom_delta = FVal.nan)
  ∧ ∀ i p c, (monthlyTable df)[i]? = some p → (monthlyTable df)[i + 1]? = some c →
      ((p.headcount : ℚ) ≠ 0 → c.headcount_mom_pct
        = FVal.fin (((c.headcount : ℚ) - (p.headcount : ℚ)) / (p.headcount : ℚ) * 100))
      ∧ ((p.new_hires : ℚ) ≠ 0 → c.new_hires_mom_pct
        = FVal.fin (((c.new_hires : ℚ) - (p.new_hires : ℚ)) / (p.new_hires : ℚ) * 100))
      ∧ c.turnover_mom_delta = FVal.fin (c.avg_turnover_rate - p.avg_turnover_rate)

/-- The two-month single-department input of §8 item 7 of the spec, with
monthly total headcounts 100 and 110. -/
def dfC2 : List MonthlyRecord :=
  [{ month_date := 1, department := "Engineering", headcount := 100, new_hires := 5,
     terminations := 2, open_positions := 3, time_to_fill_days := 30,
     offer_acceptance_rate := 80, turnover_rate := 2 },
   { month_date := 2, department := "Engineering", headcount := 110, new_hires := 8,
     terminations := 3, open_positions := 4, time_to_fill_days := 28,
     offer_acceptance_rate := 82, turnover_rate := 2.5 }]

/-- The first row of `monthlyTable dfC2`. -/
def rowW1 : MonthlyRow := withDeltas none (aggMonth dfC2 1)

/-- The second row of `monthlyTable dfC2`. -/
def rowW2 : MonthlyRow := withDeltas (some (aggMonth dfC2 1)) (aggMonth dfC2 2)

/-- C2: the first monthly row has null (`NaN`) deltas; each later row's
`headcount_mom_pct` and `new_hires_mom_pct` equal
`(curr - prev) / prev * 100` against the immediately preceding row and
`turnover_mom_delta` equals the plain difference of the average turnover
rates; in particular on the input with monthly headcounts 100 and 110
the second row's `headcount_mom_pct` is exactly 10. -/
theorem mom_delta_spec :
    (∀ df : List MonthlyRecord, momDeltaSpec df)
    ∧ ∃ c, (monthlyTable dfC2)[1]? = some c ∧ c.headcount_mom_pct = FVal.fin 10 := by
  constructor
  · intro df
    constructor
    · intro r hr
      exact monthlyTable_first_nan df r hr
    · intro i p c hp hc
      obtain ⟨h1, h2, h3⟩ := monthlyTable_delta_fields df i p c hp hc
      refine ⟨?_, ?_, h3⟩
      · intro hz
        rw [h1, pctChangeF_of_ne_zero _ _ hz]
      · intro hz
        rw [h2, pctChangeF_of_ne_zero _ _ hz]
  · refine ⟨rowW2, rfl, ?_⟩
    have hpc : rowW2.headcount_mom_pct
        = pctChangeF ((aggMonth dfC2 1).headcount : ℚ) ((aggMonth dfC2 2).headcount : ℚ) := rfl
    have e1 : (aggMonth dfC2 1).headcount = 100 := rfl
    have e2 : (aggMonth dfC2 2).headcount = 110 := rfl
    rw [hpc, e1, e2, pctChangeF_of_ne_zero _ _ (by norm_num)]
    norm_num

theorem mom_delta_spec_witness :
    (rowW1.headcount_mom_pct = FVal.nan ∧ rowW1.new_hires_mom_pct = FVal.nan
      ∧ rowW1.turnover_mom_delta = FVal.nan)
    ∧ rowW2.headcount_mom_pct
      = FVal.fin (((rowW2.headcount : ℚ) - (rowW1.headcount : ℚ))
          / (rowW1.headcount : ℚ) * 100) := by
  have h := mom_delta_spec.1 dfC2
  refine ⟨h.1 rowW1 rfl, ?_⟩
  exact ((h.2 0 rowW1 rowW2 rfl rfl).1 (by norm_num [show rowW1.headcount = 100 from rfl]))

/-! ## Claim C4: the superlative selections of the narrative summary -/

/-- A two-department input whose latest month has a turnover-rate tie:
`Alpha` (headcount 50) and `Beta` (headcount 40) both at 3%. -/
def df4 : List MonthlyRecord :=
  [{ month_date := 1, department := "Alpha", headcount := 50, new_hires := 0,
     terminations := 0, open_positions := 0, time_to_fill_days := 30,
     offer_acceptance_rate := 80, turnover_rate := 3 },
   { month_date := 1, department := "Beta", headcount := 40, new_hires := 0,
     terminations := 0, open_positions := 0, time_to_fill_days := 20,
     offer_acceptance_rate := 80, turnover_rate := 3 },
   { month_date := 2, department := "Alpha", headcount := 50, new_hires := 0,
     terminations := 0, open_positions := 0, time_to_fill_days := 30,
     offer_acceptance_rate := 80, turnover_rate := 3 },
   { month_date := 2, department := "Beta", headcount := 40, new_hires := 0,
     terminations := 0, open_positions := 0, time_to_fill_days := 20,
     offer_acceptance_rate := 80, turnover_rate := 3 }]

/-- The `dept_latest` row of department `Alpha` in `df4`. -/
def rA : DeptRow :=
  { department := "Alpha", headcount := 50, turnover_rate := 3, time_to_fill_days := 30 }

/-- The `dept_latest` row of department `Beta` in `df4`. -/
def rB : DeptRow :=
  { department := "Beta", headcount := 40, turnover_rate := 3, time_to_fill_days := 20 }

theorem dept_latest_df4 : dept_latest df4 (latestMonth df4) = [rA, rB] := by
  have hle : keyLe (id : String → String) ("Alpha") ("Beta") := by
    show ("Alpha" : String) ≤ "Beta"
    rw [String.le_iff_toList_le]
    decide
  have hKeys : deptKeys df4 2 = ["Alpha", "Beta"] := by
    show List.insertionSort _ _ = _
    rw [show ((df4.filter (fun r => r.month_date = 2)).map (fun r => r.department)).dedup
        = ["Alpha", "Beta"] from rfl]
    rw [List.insertionSort, List.insertionSort, List.insertionSort, List.orderedInsert,
      List.orderedInsert, if_pos hle]
  have hA : aggDeptRow df4 2 ("Alpha") = rA := by
    simp [aggDeptRow, df4, rA, List.filter]
  have hB : aggDeptRow df4 2 ("Beta") = rB := by
    simp [aggDeptRow, df4, rB, List.filter]
  rw [show latestMonth df4 = 2 from rfl, dept_latest, hKeys]
  rw [show List.map (aggDeptRow df4 2) ["Alpha", "Beta"]
      = [aggDeptRow df4 2 ("Alpha"), aggDeptRow df4 2 ("Beta")] from rfl]
  rw [hA, hB]
  decide

/-- C4: the narrative summarizer selects the department of maximum
turnover rate and the department of minimum time-to-fill by full scan
of `dept_latest`, and both selections break ties by the FIRST
occurrence in `dept_latest` order, deterministically: the ascending
sort is stable, and the descending sort is the stable descending sort
(pandas reverses the values before the stable ascending argsort and
the indexer after).  The final conjuncts exercise a concrete tie:
in `df4`'s latest month both departments sit at turnover 3.0, the
`dept_latest` order is `[Alpha, Beta]`, and the max-turnover selection
returns `Alpha`, the first occurrence. -/
theorem superlative_selection_spec (rows : List DeptRow) :
    top_turnover rows = maxByFirst (fun r => r.turnover_rate) rows
    ∧ best_ttf rows = minByFirst (fun r => r.time_to_fill_days) rows
    ∧ (∀ t, top_turnover rows = some t → t ∈ rows
        ∧ ∀ r ∈ rows, r.turnover_rate ≤ t.turnover_rate)
    ∧ (∀ b, best_ttf rows = some b → b ∈ rows
        ∧ ∀ r ∈ rows, b.time_to_fill_days ≤ r.time_to_fill_days)
    ∧ ((dept_latest df4 (latestMonth df4)).map (fun r => r.department) = ["Alpha", "Beta"]
        ∧ (∀ r ∈ dept_latest df4 (latestMonth df4), r.turnover_rate = 3)
        ∧ (top_turnover (dept_latest df4 (latestMonth df4))).map (fun r => r.department)
            = some ("Alpha")) := by
  refine ⟨top_turnover_eq_maxByFirst rows, best_ttf_eq_minByFirst rows, ?_, ?_, ?_⟩
  · intro t ht
    rw [top_turnover_eq_maxByFirst] at ht
    exact ⟨maxByFirst_mem _ rows t ht, maxByFirst_ge _ rows t ht⟩
  · intro b hb
    rw [best_ttf_eq_minByFirst] at hb
    exact ⟨minByFirst_mem _ rows b hb, minByFirst_le _ rows b hb⟩
  · rw [dept_latest_df4]
    exact ⟨rfl, by decide, by decide⟩

/-- The department frame used to instantiate the selection theorem. -/
def rowsW : List DeptRow := [rA, rB]

theorem superlative_selection_spec_witness :
    rA ∈ rowsW ∧ rB.turnover_rate ≤ rA.turnover_rate
      ∧ rB ∈ rowsW ∧ rB.time_to_fill_days ≤ rA.time_to_fill_days := by
  have h := superlative_selection_spec rowsW
  have ht := h.2.2.1 rA (by decide)
  have hb := h.2.2.2.1 rB (by decide)
  exact ⟨ht.1, ht.2 rB (by decide), hb.1, hb.2 rA (by decide)⟩

/-! ## Claims C5, C6, C7: error handling and the unguarded division -/

theorem build_insights_ok (df : List MonthlyRecord)
    (h2 : 2 ≤ (monthlyTable df).length) :
    ∃ ins, build_insights df = Except.ok ins := by
  have h1 : 1 ≤ (monthlyTable df).length := le_trans (by norm_num) h2
  unfold build_insights
  rw [dif_pos h1, dif_pos h2]
  exact ⟨_, rfl⟩

theorem build_insights_err_latest (df : List MonthlyRecord)
    (h0 : (monthlyTable df).length = 0) :
    build_insights df = Except.error ReportError.latestOutOfRange := by
  unfold build_insights
  rw [dif_neg (by omega)]

theorem build_insights_err_prior (df : List MonthlyRecord)
    (h1 : (monthlyTable df).length = 1) :
    build_insights df = Except.error ReportError.priorOutOfRange := by
  unfold build_insights
  rw [dif_pos (by omega), dif_neg (by omega)]

/-- C6: on fewer than two distinct months the prior-row access
`monthly.iloc[-2]` (or, on an empty input, already the latest-row access
`monthly.iloc[-1]`) raises an out-of-range index error: `build_insights`
returns an index error and never a result; whenever at least one record
exists the failing access is exactly the prior (second-to-last) row. -/
theorem too_few_months_out_of_range (df : List MonthlyRecord)
    (h : ((df.map (fun r => r.month_date)).dedup).length < 2) :
    (build_insights df = Except.error ReportError.latestOutOfRange
      ∨ build_insights df = Except.error ReportError.priorOutOfRange)
    ∧ (∀ ins, build_insights df ≠ Except.ok ins)
    ∧ (df ≠ [] → build_insights df = Except.error ReportError.priorOutOfRange) := by
  have hlen : (monthlyTable df).length = ((df.map (fun r => r.month_date)).dedup).length := by
    rw [monthlyTable_length, monthly, List.length_map, monthKeys_length]
  have hcases : (monthlyTable df).length = 0 ∨ (monthlyTable df).length = 1 := by omega
  have hne : df ≠ [] → (monthlyTable df).length = 1 := by
    intro hd
    have hmapne : df.map (fun r => r.month_date) ≠ [] := by
      intro hmn
      exact hd (List.map_eq_nil_iff.mp hmn)
    have hdedupne : (df.map (fun r => r.month_date)).dedup ≠ [] := by
      intro hdn
      exact hmapne ((List.dedup_eq_nil _).mp hdn)
    have : (df.map (fun r => r.month_date)).dedup.length ≠ 0 :=
      fun hz => hdedupne (List.length_eq_zero.mp hz)
    omega
  rcases hcases with h0 | h1
  · refine ⟨Or.inl (build_insights_err_latest df h0), ?_, ?_⟩
    · intro ins hcontra
      rw [build_insights_err_latest df h0] at hcontra
      exact Except.noConfusion hcontra
    · intro hd
      exact absurd h0 (by rw [hne hd]; norm_num)
  · refine ⟨Or.inr (build_insights_err_prior df h1), ?_, ?_⟩
    · intro ins hcontra
      rw [build_insights_err_prior df h1] at hcontra
      exact Except.noConfusion hcontra
    · intro _
      exact build_insights_err_prior df h1

/-- A one-month input. -/
def df1 : List MonthlyRecord :=
  [{ month_date := 1, department := "Engineering", headcount := 10, new_hires := 1,
     terminations := 1, open_positions := 1, time_to_fill_days := 20,
     offer_acceptance_rate := 80, turnover_rate := 2 }]

theorem too_few_months_witness :
    ((df1.map (fun r => r.month_date)).dedup).length < 2
    ∧ df1 ≠ []
    ∧ build_insights df1 = Except.error ReportError.priorOutOfRange :=
  ⟨by decide, by decide, (too_few_months_out_of_range df1 (by decide)).2.2 (by decide)⟩

theorem pctChangeF_zero_not_fin (curr : ℚ) :
    pctChangeF 0 curr = FVal.pinf ∨ pctChangeF 0 curr = FVal.ninf
      ∨ pctChangeF 0 curr = FVal.nan := by
  rw [pctChangeF, if_pos rfl]
  by_cases h1 : 0 < curr
  · rw [if_pos h1]
    exact Or.inl rfl
  · rw [if_neg h1]
    by_cases h2 : curr < 0
    · rw [if_pos h2]
      exact Or.inr (Or.inl rfl)
    · rw [if_neg h2]
      exact Or.inr (Or.inr rfl)

/-- C7: when some month's total headcount is zero and a following month
exists, `build_insights` raises no error (with at least two months it
returns a result), and the following month's `headcount_mom_pct` is
silently an infinite or undefined (`NaN`) value — the division is not
guarded. -/
theorem zero_denominator_unguarded (df : List MonthlyRecord) (i : ℕ) (p c : MonthlyRow)
    (hp : (monthlyTable df)[i]? = some p) (hc : (monthlyTable df)[i + 1]? = some c)
    (hz : p.headcount = 0) :
    (∃ ins, build_insights df = Except.ok ins)
    ∧ (c.headcount_mom_pct = FVal.pinf ∨ c.headcount_mom_pct = FVal.ninf
        ∨ c.headcount_mom_pct = FVal.nan) := by
  constructor
  · apply build_insights_ok
    obtain ⟨hlt, _⟩ := List.getElem?_eq_some_iff.mp hc
    omega
  · obtain ⟨h1, _, _⟩ := monthlyTable_delta_fields df i p c hp hc
    rw [h1, hz]
    simpa using pctChangeF_zero_not_fin ((c.headcount : ℚ))

/-- A two-month input whose first month has total headcount zero. -/
def df7 : List MonthlyRecord :=
  [{ month_date := 1, department := "Engineering", headcount := 0, new_hires := 0,
     terminations := 0, open_positions := 0, time_to_fill_days := 20,
     offer_acceptance_rate := 80, turnover_rate := 2 },
   { month_date := 2, department := "Engineering", headcount := 5, new_hires := 1,
     terminations := 0, open_positions := 0, time_to_fill_days := 20,
     offer_acceptance_rate := 80, turnover_rate := 2 }]

/-- The first row of `monthlyTable df7`. -/
def row71 : MonthlyRow := withDeltas none (aggMonth df7 1)

/-- The second row of `monthlyTable df7`. -/
def row72 : MonthlyRow := withDeltas (some (aggMonth df7 1)) (aggMonth df7 2)

theorem zero_denominator_witness :
    row71.headcount = 0
    ∧ (∃ ins, build_insights df7 = Except.ok ins)
    ∧ (row72.headcount_mom_pct = FVal.pinf ∨ row72.headcount_mom_pct = FVal.ninf
        ∨ row72.headcount_mom_pct = FVal.nan) := by
  have h := zero_denominator_unguarded df7 0 row71 row72 rfl rfl rfl
  exact ⟨rfl, h.1, h.2⟩

/-- C5: when the input path does not exist `load_data` raises the
file-not-found error (the spec's `MissingInputError`) immediately, the
report entry point returns with the filesystem unchanged — no output
file is written — and the error is exactly that error; whenever the
path exists, `load_data` never raises it. -/
theorem missing_input_spec (fs1 fs2 : FS)
    (h1 : fs1.files DATA_PATH = none) (h2 : fs2.files DATA_PATH ≠ none) :
    load_data fs1 DATA_PATH
      = Except.error (ReportError.missingInput ("Metrics file not found: " ++ DATA_PATH))
    ∧ reportMain fs1
      = (fs1, Except.error (ReportError.missingInput ("Metrics file not found: " ++ DATA_PATH)))
    ∧ ∀ msg, load_data fs2 DATA_PATH ≠ Except.error (ReportError.missingInput msg) := by
  have hl : load_data fs1 DATA_PATH
      = Except.error (ReportError.missingInput ("Metrics file not found: " ++ DATA_PATH)) := by
    rw [load_data, h1]
  refine ⟨hl, ?_, ?_⟩
  · rw [reportMain, hl]
  · intro msg hcontra
    rw [load_data] at hcontra
    cases hf : fs2.files DATA_PATH with
    | none => exact h2 hf
    | some cont =>
      rw [hf] at hcontra
      cases cont <;> simp at hcontra

/-- The empty filesystem. -/
def fsEmpty : FS := ⟨fun _ => none⟩

/-- A filesystem holding an input file at `DATA_PATH`. -/
def fsWithInput : FS :=
  ⟨fun p => if p = DATA_PATH then some (FileContent.inputCsv df1) else none⟩

theorem missing_input_spec_witness :
    reportMain fsEmpty
      = (fsEmpty, Except.error (ReportError.missingInput ("Metrics file not found: " ++ DATA_PATH)))
    ∧ load_data fsWithInput DATA_PATH
      ≠ Except.error (ReportError.missingInput ("Metrics file not found: " ++ DATA_PATH)) := by
  have h := missing_input_spec fsEmpty fsWithInput rfl (by simp [fsWithInput])
  exact ⟨h.2.1, h.2.2 _⟩

/-! ## Claims C8, C9, C10: the mock data generator -/

/-- C8: the generator's output is a function of the seed and the
distribution sampler alone: the rows written to the output path are the
same for any two runs (any pre-existing filesystem states), namely the
rows generated from the stream that seed 42 selects. -/
theorem mock_generator_deterministic (sampler : ℕ → ℕ → ℚ) (fs1 fs2 : FS) :
    (generate_mock_data_main sampler fs1).files DATA_PATH
      = (generate_mock_data_main sampler fs2).files DATA_PATH
    ∧ (generate_mock_data_main sampler fs1).files DATA_PATH
      = some (FileContent.mockCsv genColumns (generateRows (sampler 42))) := by
  constructor <;> simp [generate_mock_data_main, writeFile]

/-- C9: the generator always emits exactly 72 rows, whose
(month, department) pairs are precisely the 12 generated months paired
with each of the 6 departments, with no pair repeated, and its column
schema is exactly the schema the report builder reads. -/
theorem mock_rows_spec (noise : ℕ → ℚ) :
    (generateRows noise).length = 72
    ∧ (generateRows noise).map (fun r => (r.month, r.department))
        = (List.range 12).flatMap (fun i => departments.map (fun d => (ymStr i, d)))
    ∧ ((generateRows noise).map (fun r => (r.month, r.department))).Nodup
    ∧ genColumns = loaderColumns := by
  have hmap : (generateRows noise).map (fun r => (r.month, r.department))
      = (List.range 12).flatMap (fun i => departments.map (fun d => (ymStr i, d))) := by
    rw [generateRows, List.map_flatMap]
    rfl
  have hlen : (generateRows noise).length = 72 := by
    have h := congrArg List.length hmap
    rw [List.length_map] at h
    rw [h]
    decide
  refine ⟨hlen, hmap, ?_, rfl⟩
  rw [hmap]
  decide

theorem pyRound_ge (n : ℤ) (x : ℚ) (h : (n : ℚ) ≤ x) : n ≤ pyRound x := by
  have hf : n ≤ ⌊x⌋ := Int.le_floor.mpr h
  simp only [pyRound]
  split_ifs <;> omega

theorem pyRound_le (n : ℤ) (x : ℚ) (h : x ≤ (n : ℚ)) : pyRound x ≤ n := by
  have hf : ⌊x⌋ ≤ n := by
    have h2 := Int.floor_mono h
    simpa using h2
  have hstrict : ¬ (x - (⌊x⌋ : ℚ) < 1 / 2) → ⌊x⌋ + 1 ≤ n := by
    intro h1
    rcases lt_or_eq_of_le hf with hlt | heq
    · omega
    · exfalso
      apply h1
      rw [heq]
      have hx0 : x - (n : ℚ) ≤ 0 := by linarith
      linarith
  simp only [pyRound]
  split_ifs with h1 h2 h3
  · exact hf
  · exact hstrict h1
  · exact hf
  · exact hstrict h1

theorem bounded_ge (value low high : ℚ) : low ≤ bounded value low high :=
  le_max_left _ _

theorem bounded_le (value low high : ℚ) (hlh : low ≤ high) : bounded value low high ≤ high := by
  rw [bounded]
  exact max_le hlh (min_le_left _ _)

theorem roundTo_in_of_bounds (nd : ℕ) (lo hi : ℤ) (x : ℚ)
    (hlo : (lo : ℚ) ≤ x * 10 ^ nd) (hhi : x * 10 ^ nd ≤ (hi : ℚ)) :
    (lo : ℚ) / 10 ^ nd ≤ roundTo nd x ∧ roundTo nd x ≤ (hi : ℚ) / 10 ^ nd := by
  have hge : (lo : ℚ) ≤ (pyRound (x * 10 ^ nd) : ℚ) :=
    Int.cast_le.mpr (pyRound_ge lo _ hlo)
  have hle : (pyRound (x * 10 ^ nd) : ℚ) ≤ (hi : ℚ) :=
    Int.cast_le.mpr (pyRound_le hi _ hhi)
  have hpow : (0 : ℚ) < 10 ^ nd := by positivity
  rw [roundTo]
  constructor
  · gcongr
  · gcongr

theorem offer_round_bounds (v : ℚ) (hlo : (0.62 : ℚ) ≤ v) (hhi : v ≤ 0.95) :
    (62 : ℚ) ≤ roundTo 1 (v * 100) ∧ roundTo 1 (v * 100) ≤ 95 := by
  have h := roundTo_in_of_bounds 1 620 950 (v * 100)
    (by push_cast; nlinarith) (by push_cast; nlinarith)
  constructor
  · have h1 := h.1
    norm_num at h1
    exact h1
  · have h2 := h.2
    norm_num at h2
    exact h2

theorem turnover_round_bounds (v : ℚ) (hlo : (0.004 : ℚ) ≤ v) (hhi : v ≤ 0.05) :
    (0.4 : ℚ) ≤ roundTo 2 (v * 100) ∧ roundTo 2 (v * 100) ≤ 5 := by
  have h := roundTo_in_of_bounds 2 40 500 (v * 100)
    (by push_cast; nlinarith) (by push_cast; nlinarith)
  constructor
  · have h1 := h.1
    norm_num at h1
    linarith
  · have h2 := h.2
    norm_num at h2
    linarith

/-- C10: every generated row satisfies the clamp-induced range
invariants no matter what the random draws are: headcount at least 8,
the three count columns nonnegative, time-to-fill at least 15 days, the
offer acceptance rate within [62.0, 95.0] percent and the turnover rate
within [0.4, 5.0] percent. -/
theorem mock_row_invariants (noise : ℕ → ℚ) (r : GenRow) (hr : r ∈ generateRows noise) :
    8 ≤ r.headcount ∧ 0 ≤ r.new_hires ∧ 0 ≤ r.terminations ∧ 0 ≤ r.open_positions
    ∧ 15 ≤ r.time_to_fill_days
    ∧ (62 : ℚ) ≤ r.offer_acceptance_rate ∧ r.offer_acceptance_rate ≤ 95
    ∧ (0.4 : ℚ) ≤ r.turnover_rate ∧ r.turnover_rate ≤ 5 := by
  rw [generateRows] at hr
  obtain ⟨i, _, hr2⟩ := List.mem_flatMap.mp hr
  obtain ⟨p, _, rfl⟩ := List.mem_map.mp hr2
  have hoff := offer_round_bounds
    (bounded (offerBase p.2 + noise (8 * (6 * i + p.1) + 7)
      - (if calMonth i ∈ [6, 7] then 0.015 else 0)) 0.62 0.95)
    (bounded_ge _ _ _) (bounded_le _ _ _ (by norm_num))
  have htur := turnover_round_bounds
    (bounded (turnoverBase p.2 + noise (8 * (6 * i + p.1) + 2)
      + (if calMonth i ∈ [7, 8] then 0.002 else 0)) 0.004 0.05)
    (bounded_ge _ _ _) (bounded_le _ _ _ (by norm_num))
  refine ⟨?_, ?_, ?_, ?_, ?_, ?_, ?_, ?_, ?_⟩
  · exact pyRound_ge 8 _ (by push_cast; exact le_max_left _ _)
  · exact pyRound_ge 0 _ (by push_cast; exact le_max_left _ _)
  · exact pyRound_ge 0 _ (by push_cast; exact le_max_left _ _)
  · exact pyRound_ge 0 _ (by push_cast; exact le_max_left _ _)
  · exact pyRound_ge 15 _ (by push_cast; exact le_max_left _ _)
  · exact hoff.1
  · exact hoff.2
  · exact htur.1
  · exact htur.2

/-- The all-zeros draw stream. -/
def noiseZero : ℕ → ℚ := fun _ => 0

/-- The first generated row under the all-zeros stream. -/
def rowG : GenRow := genRow noiseZero 0 0 ("Engineering")

theorem mock_row_invariants_witness :
    rowG ∈ generateRows noiseZero
    ∧ (8 ≤ rowG.headcount ∧ 0 ≤ rowG.new_hires ∧ 0 ≤ rowG.terminations
      ∧ 0 ≤ rowG.open_positions ∧ 15 ≤ rowG.time_to_fill_days
      ∧ (62 : ℚ) ≤ rowG.offer_acceptance_rate ∧ rowG.offer_acceptance_rate ≤ 95
      ∧ (0.4 : ℚ) ≤ rowG.turnover_rate ∧ rowG.turnover_rate ≤ 5) := by
  have hmem : rowG ∈ generateRows noiseZero := by
    rw [generateRows]
    apply List.mem_flatMap.mpr
    exact ⟨0, by decide, List.mem_map.mpr ⟨(0, "Engineering"), by decide, rfl⟩⟩
  exact ⟨hmem, mock_row_invariants noiseZero rowG hmem⟩

/-! ## The frames of a successful `build_insights` run -/

theorem monthlyTable_last_month (df : List MonthlyRecord)
    (h1 : 1 ≤ (monthlyTable df).length) :
    ((monthlyTable df).get ⟨(monthlyTable df).length - 1, by omega⟩).month_date
      = latestMonth df := by
  have hmap := monthlyTable_map_month df
  have hlen : (monthKeys df).length = (monthlyTable df).length := by
    rw [← hmap, List.length_map]
  have hget0 : (monthlyTable df)[(monthlyTable df).length - 1]?
      = some ((monthlyTable df).get ⟨(monthlyTable df).length - 1, by omega⟩) :=
    List.getElem?_eq_getElem (by omega)
  have hget : (monthKeys df)[(monthlyTable df).length - 1]?
      = some (((monthlyTable df).get ⟨(monthlyTable df).length - 1, by omega⟩).month_date) := by
    have hh : ((monthlyTable df).map (fun r => r.month_date))[(monthlyTable df).length - 1]?
        = some (((monthlyTable df).get ⟨(monthlyTable df).length - 1, by omega⟩).month_date) := by
      rw [List.getElem?_map, hget0]
      rfl
    rw [hmap] at hh
    exact hh
  rw [latestMonth, List.getLastD_eq_getLast?, List.getLast?_eq_getElem?, hlen, hget]
  rfl

theorem build_insights_frames (df : List MonthlyRecord) (ins : Insights)
    (h : build_insights df = Except.ok ins) :
    ins.monthly = monthlyTable df
    ∧ ins.dept_latest = dept_latest df (latestMonth df)
    ∧ (monthlyTable df)[(monthlyTable df).length - 1]? = some ins.latest
    ∧ (monthlyTable df)[(monthlyTable df).length - 2]? = some ins.prior := by
  unfold build_insights at h
  split at h
  · next h1 =>
    split at h
    · next h2 =>
      obtain rfl : _ = ins := Except.ok.inj h
      refine ⟨rfl, ?_, ?_, ?_⟩
      · show dept_latest df _ = dept_latest df (latestMonth df)
        rw [monthlyTable_last_month df h1]
      · exact List.getElem?_eq_getElem (by omega)
      · exact List.getElem?_eq_getElem (by omega)
    · exact absurd h (by simp)
  · exact absurd h (by simp)
